import Mathlib

/-!
Verification of the water-sort puzzle core (pour engine, canonical hasher,
bounded BFS solver, level generator) as a shallow embedding of the
TypeScript sources `src/game/engine.ts`, `src/game/solver.ts` and
`src/game/levels.ts`.

Conventions of the embedding:
* `Color` is `String` and a `Tube` is a `List Color`, bottom at index 0,
  top at the last index, exactly as in `types.ts`.
* JavaScript's optional parameters (`lockedMask?`) are modelled by passing
  `[]`; out-of-range indexing (`xs?.[i]`, which yields a falsy `undefined`)
  is modelled with `List.getD` and the corresponding default.
* Calls to `Math.random()` are modelled by explicit oracle arguments with
  hypotheses bounding them the way the JavaScript expression is bounded.
* The solver's `while` loop is modelled with a fuel argument
  (`MAX_STATES + 2` is enough fuel, see `solveLoop_fuel_irrelevant`).
-/

namespace WaterSort

abbrev Color := String

abbrev Tube := List Color

/-- Constant `TUBE_CAPACITY` from `types.ts`. -/
def TUBE_CAPACITY : Nat := 5

/-- Function `topColor` from `engine.ts`: `tube[tube.length - 1]`, i.e. the last
element, or `none` for an empty tube. -/
def topColor (tube : Tube) : Option Color :=
  tube.getLast?

/-- The descending `for` loop inside `topCount`: the argument `i + 1` means
that index `i` is inspected next, continuing down to index `0`; `0` means the
loop is over.  It returns how many further segments join the top run. -/
def topCountLoop (tube : Tube) (lockedMask : List Bool) (color : Color) : Nat → Nat
  | 0 => 0
  | i + 1 =>
    if lockedMask.getD i false then 0
    else if tube.getD i "" = color then topCountLoop tube lockedMask color i + 1
    else 0

/-- Function `topCount` from `engine.ts`: the number of consecutive same-color
segments at the top of a tube, stopping at the first locked segment. -/
def topCount (tube : Tube) (lockedMask : List Bool) : Nat :=
  match topColor tube with
  | none => 0
  | some color => 1 + topCountLoop tube lockedMask color (tube.length - 1)

/-- Function `canPour` from `engine.ts`. -/
def canPour (source destination : Tube) : Bool :=
  if source.length = 0 then false
  else if TUBE_CAPACITY ≤ destination.length then false
  else if destination.length = 0 then true
  else decide (topColor source = topColor destination)

/-- Function `pour` from `engine.ts`.  `space` and `transferred` are computed in `Int`
because the JavaScript subtraction can be negative; `Int.toNat` reproduces the
net effect of `splice`/the push loop for a non-positive `transferred`
(nothing moves). -/
def pour (tubes : List Tube) (fr tgt : Nat) (lockedMask : List (List Bool)) : List Tube :=
  let source := tubes.getD fr []
  let dest := tubes.getD tgt []
  let color := (topColor source).getD ""
  let count := topCount source (lockedMask.getD fr [])
  let space : Int := (TUBE_CAPACITY : Int) - (dest.length : Int)
  let transferred := (min (count : Int) space).toNat
  let source' := source.take (source.length - transferred)
  let dest' := dest ++ List.replicate transferred color
  tubes.mapIdx (fun i t => if i = fr then source' else if i = tgt then dest' else t)

/-- Function `isTubeComplete` from `engine.ts`. -/
def isTubeComplete (tube : Tube) (lockedMask : List Bool) : Bool :=
  if tube.length ≠ TUBE_CAPACITY then false
  else if lockedMask.any (fun b => b) then false
  else tube.all (fun c => decide (c = tube.getD 0 ""))

/-- Function `isLevelComplete` from `engine.ts`: every tube is empty or complete. -/
def isLevelComplete (tubes : List Tube) (lockedMask : List (List Bool)) : Bool :=
  tubes.enum.all (fun p =>
    decide (p.2.length = 0) || isTubeComplete p.2 (lockedMask.getD p.1 []))

/-- Structure `Move` from `types.ts` (the fields `from`/`to` are called `fr`/`tgt`
because `from` and `to` are reserved in Lean). -/
structure Move where
  fr : Nat
  tgt : Nat
deriving DecidableEq, Repr

/-- Function `getValidMoves` from `engine.ts`. -/
def getValidMoves (tubes : List Tube) (lockedMask : List (List Bool)) : List Move :=
  (List.range tubes.length).flatMap (fun fr =>
    if (tubes.getD fr []).length = 0 then []
    else if isTubeComplete (tubes.getD fr []) (lockedMask.getD fr []) then []
    else (List.range tubes.length).filterMap (fun tgt =>
      if fr = tgt then none
      else if canPour (tubes.getD fr []) (tubes.getD tgt []) then some ⟨fr, tgt⟩
      else none))

/-! ### Solver (`solver.ts`) -/

/-- Constant `MAX_STATES` from `solver.ts`. -/
def MAX_STATES : Nat := 300000

/-- The per-tube encoding `t.join(",")` used by `hashState`. -/
def encodeTube (t : Tube) : String :=
  String.intercalate "," t

/-- Lexicographic (code-unit by code-unit) strict comparison of strings as
character lists: this is the order JavaScript's default `sort()` comparator
uses on strings. -/
def strLtb : List Char → List Char → Bool
  | _, [] => false
  | [], _ :: _ => true
  | a :: as, b :: bs =>
    if a < b then true
    else if b < a then false
    else strLtb as bs

/-- String `a` may be placed before `b` when sorting: `¬ b < a`. -/
def strLeb (a b : String) : Bool :=
  !(strLtb b.data a.data)

/-- Function `hashState` from `solver.ts`: encode each tube, sort the encodings in
JavaScript's default (lexicographic) string order, and join with `"|"`.
`Array.prototype.sort()` is modelled by an insertion sort with the same
comparator; any sorting algorithm produces the same output (the order is
total and antisymmetric, see `hashState_perm_congr`). -/
def hashState (tubes : List Tube) : String :=
  String.intercalate "|" ((tubes.map encodeTube).insertionSort (fun a b => strLeb a b))

/-- Structure `SolveResult` from `solver.ts`. -/
structure SolveResult where
  solvable : Bool
  par : Nat
deriving DecidableEq, Repr

/-- The pruning test inside `solve`'s move loop: destination empty and the
whole source tube a single color (`source.every(c => c === source[0])`). -/
def pruneMove (state : List Tube) (m : Move) : Bool :=
  decide ((state.getD m.tgt []).length = 0) &&
    (state.getD m.fr []).all (fun c => decide (c = (state.getD m.fr []).getD 0 ""))

/-- Outcome of running `solve`'s inner `for (const move of moves)` loop to
completion for one dequeued state. -/
inductive StepOut where
  | goal
  | cont (visited : List String) (nextQueue : List (List Tube))
deriving DecidableEq

/-- Body of `solve`'s inner move loop for one state: skip pruned moves, `pour`, return
early on a completed result, otherwise deduplicate against `visited` (a list
standing for the insertion-ordered `Set`) and push to `nextQueue`. -/
def processMoves (state : List Tube) : List Move → List String → List (List Tube) → StepOut
  | [], visited, nextQueue => .cont visited nextQueue
  | m :: rest, visited, nextQueue =>
    if pruneMove state m then processMoves state rest visited nextQueue
    else
      let next := pour state m.fr m.tgt []
      if isLevelComplete next [] then .goal
      else
        let h := hashState next
        if visited.contains h then processMoves state rest visited nextQueue
        else processMoves state rest (visited ++ [h]) (nextQueue ++ [next])

/-- Outcome of one pass of `solve`'s `for (const state of queue)` loop. -/
inductive RoundOut where
  | goal
  | overflow
  | next (visited : List String) (nextQueue : List (List Tube))
deriving DecidableEq

/-- One pass over the queue: process each state's moves, returning `goal` on a
completed pour, `overflow` as soon as `visited.size > MAX_STATES` after a
state, else the final `visited` and `nextQueue`. -/
def processQueue : List (List Tube) → List String → List (List Tube) → RoundOut
  | [], visited, nextQueue => .next visited nextQueue
  | state :: rest, visited, nextQueue =>
    match processMoves state (getValidMoves state []) visited nextQueue with
    | .goal => .goal
    | .cont visited' nextQueue' =>
      if MAX_STATES < visited'.length then .overflow
      else processQueue rest visited' nextQueue'

/-- Loop `while (queue.length > 0)` of `solve`, with a fuel argument for
structural termination; `solve` supplies fuel `MAX_STATES + 2`, which can
never run out (`solveLoop_fuel_irrelevant`). -/
def solveLoop : Nat → List (List Tube) → List String → Nat → Option SolveResult
  | 0, _, _, _ => none
  | _ + 1, [], _, _ => some ⟨false, 0⟩
  | fuel + 1, queue@(_ :: _), visited, depth =>
    match processQueue queue visited [] with
    | .goal => some ⟨true, depth + 1⟩
    | .overflow => none
    | .next visited' nextQueue => solveLoop fuel nextQueue visited' (depth + 1)

/-- Function `solve` from `solver.ts`.  `none` models the `null` ("too complex")
result. -/
def solve (tubes : List Tube) : Option SolveResult :=
  if isLevelComplete tubes [] then some ⟨true, 0⟩
  else solveLoop (MAX_STATES + 2) [tubes] [hashState tubes] 0

/-! ### Level generator (`levels.ts`) -/

/-- Function `hasDuplicateTube` from `levels.ts`: some filled tube is uniform. -/
def hasDuplicateTube (tubes : List Tube) : Bool :=
  tubes.any (fun t =>
    decide (t.length = TUBE_CAPACITY) && t.all (fun c => decide (c = t.getD 0 "")))

/-- Function `estimatePar` from `levels.ts`:
`Math.floor(filledTubeCount * (TUBE_CAPACITY - 1.5))`. -/
def estimatePar (filledTubeCount : Nat) : Nat :=
  (⌊(filledTubeCount : ℚ) * ((TUBE_CAPACITY : ℚ) - 3 / 2)⌋).toNat

/-- Per-tube body of `generateLockedMask` from `levels.ts`.  The two
`Math.random()` calls are modelled by oracles: `isLocked` stands for
`Math.random() < lockedPercentage`, and `r` stands for
`Math.floor(Math.random() * (tube.length - 1))` (so `r ≤ tube.length - 2`
whenever `tube.length ≥ 2`, because `Math.random() < 1`). -/
def generateLockedMaskTube (tube : Tube) (lockedPercentage : ℚ) (isLocked : Bool)
    (r : Nat) : List Bool :=
  if tube.length = 0 ∨ lockedPercentage ≤ 0 then tube.map (fun _ => false)
  else if !isLocked then tube.map (fun _ => false)
  else
    let lockedCount := 1 + r
    tube.mapIdx (fun i _ => decide (i < lockedCount))

/-- Function `generateLockedMask` from `levels.ts`, with one oracle entry per tube for
each of the two `Math.random()` calls. -/
def generateLockedMask (tubes : List Tube) (lockedPercentage : ℚ)
    (lockOracle : List Bool) (countOracle : List Nat) : List (List Bool) :=
  tubes.mapIdx (fun i tube =>
    generateLockedMaskTube tube lockedPercentage (lockOracle.getD i false)
      (countOracle.getD i 0))

/-- Outcome of one iteration of `createLevel`'s attempt loop. -/
inductive Attempt where
  | rejected
  | accepted (tubes : List Tube) (par : Nat) (usedSolver : Bool)
deriving DecidableEq

/-- The body of one iteration of `createLevel`'s attempt loop
(`levels.ts`): reject already-complete or pre-solved configurations before
the solver can run, then (when `filledTubeCount ≤ 8`, the `canSolve` flag)
consult `solve` and reject unsolvable or trivially easy (`par < 3`)
candidates.  The `accepted` payload records the configuration, the assigned
par and whether the solver was consulted; the remaining `Level` metadata
(locked mask, world, tube cost) does not influence acceptance. -/
def attemptStep (filledTubeCount : Nat) (tubes : List Tube) : Attempt :=
  let canSolve := decide (filledTubeCount ≤ 8)
  if isLevelComplete tubes [] then .rejected
  else if hasDuplicateTube tubes then .rejected
  else if canSolve then
    match solve tubes with
    | none => .accepted tubes (estimatePar filledTubeCount) true
    | some result =>
      if result.solvable = false then .rejected
      else if result.par < 3 then .rejected
      else .accepted tubes result.par true
  else .accepted tubes (estimatePar filledTubeCount) false

/-- Whether the iteration body `attemptStep` reaches its `solve` call: both
rejection checks passed and the tier is small enough (`canSolve`).  This
mirrors the control flow of `createLevel` exactly: `solve` is applied to a
candidate iff this flag is true. -/
def attemptInvokesSolver (filledTubeCount : Nat) (tubes : List Tube) : Bool :=
  !isLevelComplete tubes [] && !hasDuplicateTube tubes && decide (filledTubeCount ≤ 8)

/-- Model of `createLevel`'s attempt loop over the stream of `generateTubes` outputs
(the randomness oracle): return the first accepted candidate, `none` when
all attempts are rejected (the code then falls back to an unchecked
configuration outside the loop). -/
def createLevelAttempts (filledTubeCount : Nat) : List (List Tube) → Option Attempt
  | [] => none
  | tubes :: rest =>
    match attemptStep filledTubeCount tubes with
    | .rejected => createLevelAttempts filledTubeCount rest
    | .accepted t p u => some (.accepted t p u)

/-! ### `revealTopSegments` (`engine.ts`) -/

/-- The per-tube body of `revealTopSegments` (`engine.ts`): sync the mask
length to the tube length (truncate what was poured away, pad new segments
with `false`), then reveal a locked top segment. -/
def revealTubeMask (tubeMask : List Bool) (tube : Tube) : List Bool :=
  let newMask :=
    if tube.length < tubeMask.length then tubeMask.take tube.length
    else if tubeMask.length < tube.length then
      tubeMask ++ List.replicate (tube.length - tubeMask.length) false
    else tubeMask
  if 0 < tube.length ∧ newMask.getD (tube.length - 1) false = true then
    newMask.set (tube.length - 1) false
  else newMask

/-- Function `revealTopSegments` from `engine.ts`: process each tube of
`affectedIndices` (or all of them, when the optional argument is omitted,
modelled by `none`); unprocessed masks are reused as-is. -/
def revealTopSegments (lockedMask : List (List Bool)) (tubes : List Tube)
    (affectedIndices : Option (List Nat)) : List (List Bool) :=
  lockedMask.mapIdx (fun ti tubeMask =>
    if (match affectedIndices with
        | some idxs => !idxs.contains ti
        | none => false) then tubeMask
    else revealTubeMask tubeMask (tubes.getD ti []))

/-! ### Derived notions used by the theorems -/

/-- The value of the local `transferred` inside `pour`. -/
def transferredN (tubes : List Tube) (fr tgt : Nat) (lockedMask : List (List Bool)) : Nat :=
  (min ((topCount (tubes.getD fr []) (lockedMask.getD fr [])) : Int)
      ((TUBE_CAPACITY : Int) - ((tubes.getD tgt []).length : Int))).toNat

/-- States reachable from `s` by legal pours: pairs of distinct in-range
indices satisfying `canPour` (any locked mask). -/
inductive Reachable : List Tube → List Tube → Prop
  | refl (tubes : List Tube) : Reachable tubes tubes
  | step {s t : List Tube} (fr tgt : Nat) (lockedMask : List (List Bool)) :
      Reachable s t → fr < t.length → tgt < t.length → fr ≠ tgt →
      canPour (t.getD fr []) (t.getD tgt []) = true →
      Reachable s (pour t fr tgt lockedMask)

/-- Apply a sequence of pours (no locked mask, as in the solver). -/
def applyPath (tubes : List Tube) (path : List (Nat × Nat)) : List Tube :=
  path.foldl (fun s p => pour s p.1 p.2 []) tubes

/-- Check that a sequence of pours consists of legal moves: distinct
in-range indices satisfying `canPour` at each intermediate state. -/
def pathLegal : List Tube → List (Nat × Nat) → Bool
  | _, [] => true
  | s, p :: rest =>
    decide (p.1 < s.length) && decide (p.2 < s.length) && decide (p.1 ≠ p.2) &&
      canPour (s.getD p.1 []) (s.getD p.2 []) && pathLegal (pour s p.1 p.2 []) rest

/-- A concrete configuration whose colors contain the separator `","` used
by `hashState`: the tubes `["a,a"]` and `["a","a"]` both encode to the
string `"a,a"`, so `hashState` conflates genuinely different states. -/
def collisionTubes : List Tube :=
  [["a", "a", "a,a"], ["a,a", "a", "a,a"], ["a", "a"], ["a,a", "a,a"]]

section Helpers

lemma topCountLoop_le (tube : Tube) (lockedMask : List Bool) (color : Color) :
    ∀ n, topCountLoop tube lockedMask color n ≤ n := by
  intro n
  induction n with
  | zero => simp [topCountLoop]
  | succ i ih =>
    simp only [topCountLoop]
    split
    · omega
    · split
      · omega
      · omega

lemma topCount_le_length (tube : Tube) (lockedMask : List Bool) :
    topCount tube lockedMask ≤ tube.length := by
  cases tube with
  | nil => simp [topCount, topColor]
  | cons c cs =>
    have h : topColor (c :: cs) = (c :: cs).getLast? := rfl
    unfold topCount
    rw [h]
    cases hl : (c :: cs).getLast? with
    | none => simp at hl
    | some color =>
      have := topCountLoop_le (c :: cs) lockedMask color ((c :: cs).length - 1)
      simp only [List.length_cons] at *
      omega

lemma pour_length (tubes : List Tube) (fr tgt : Nat) (lockedMask : List (List Bool)) :
    (pour tubes fr tgt lockedMask).length = tubes.length := by
  simp [pour]

lemma pour_getD (tubes : List Tube) (fr tgt : Nat) (lockedMask : List (List Bool))
    (k : Nat) (hk : k < tubes.length) :
    (pour tubes fr tgt lockedMask).getD k [] =
      if k = fr then
        (tubes.getD fr []).take
          ((tubes.getD fr []).length - transferredN tubes fr tgt lockedMask)
      else if k = tgt then
        tubes.getD tgt [] ++
          List.replicate (transferredN tubes fr tgt lockedMask)
            ((topColor (tubes.getD fr [])).getD "")
      else tubes.getD k [] := by
  have hk' : k < (pour tubes fr tgt lockedMask).length := by
    rw [pour_length]; exact hk
  rw [List.getD_eq_getElem _ _ hk']
  rw [List.getD_eq_getElem tubes [] hk]
  simp only [pour, transferredN, List.getElem_mapIdx]

end Helpers
section Helpers2

lemma transferredN_eq_min (tubes : List Tube) (fr tgt : Nat) (lockedMask : List (List Bool))
    (hb : (tubes.getD tgt []).length ≤ TUBE_CAPACITY) :
    transferredN tubes fr tgt lockedMask =
      min (topCount (tubes.getD fr []) (lockedMask.getD fr []))
        (TUBE_CAPACITY - (tubes.getD tgt []).length) := by
  unfold transferredN
  rw [show (TUBE_CAPACITY : Int) - ((tubes.getD tgt []).length : Int) =
      ((TUBE_CAPACITY - (tubes.getD tgt []).length : Nat) : Int) by
    push_cast [Nat.cast_sub hb]; ring]
  rw [← Nat.cast_min]
  exact Int.toNat_natCast _

lemma canPour_source_ne (s d : Tube) (h : canPour s d = true) : s ≠ [] := by
  intro hs
  subst hs
  simp [canPour] at h

lemma canPour_dest_lt (s d : Tube) (h : canPour s d = true) :
    d.length < TUBE_CAPACITY := by
  by_contra hge
  push_neg at hge
  simp [canPour, Nat.not_lt.mp, hge] at h

end Helpers2
section Helpers3

lemma pour_eq_self_of_transferredN_zero (tubes : List Tube) (fr tgt : Nat)
    (lockedMask : List (List Bool)) (h : transferredN tubes fr tgt lockedMask = 0) :
    pour tubes fr tgt lockedMask = tubes := by
  have e : (min ((topCount (tubes.getD fr []) (lockedMask.getD fr [])) : Int)
      ((TUBE_CAPACITY : Int) - ((tubes.getD tgt []).length : Int))).toNat = 0 := h
  apply List.ext_getElem (by simp [pour])
  intro k hk1 hk2
  simp only [pour, List.getElem_mapIdx, e, Nat.sub_zero, List.take_length,
    List.replicate_zero, List.append_nil]
  split
  · next hkf => subst hkf; exact (List.getD_eq_getElem tubes [] hk2).symm ▸ rfl
  · split
    · next _ hkt => subst hkt; exact (List.getD_eq_getElem tubes [] hk2).symm ▸ rfl
    · rfl

lemma transferredN_zero_of_source_empty (tubes : List Tube) (fr tgt : Nat)
    (lockedMask : List (List Bool)) (h : tubes.getD fr [] = []) :
    transferredN tubes fr tgt lockedMask = 0 := by
  unfold transferredN
  rw [h]
  have : topCount [] (lockedMask.getD fr []) = 0 := rfl
  rw [this]
  apply Int.toNat_of_nonpos
  exact min_le_left _ _

lemma transferredN_zero_of_dest_full (tubes : List Tube) (fr tgt : Nat)
    (lockedMask : List (List Bool)) (h : TUBE_CAPACITY ≤ (tubes.getD tgt []).length) :
    transferredN tubes fr tgt lockedMask = 0 := by
  unfold transferredN
  apply Int.toNat_of_nonpos
  refine le_trans (min_le_right _ _) ?_
  omega

end Helpers3
/-- C3: for distinct in-range indices with `canPour` true, `pour` removes
`count = min(topRunLength(source, lockedMask[from]), TUBE_CAPACITY - |dest|)`
segments from the top of the source, appends `count` copies of the source's
top color to the destination, and leaves every other tube unchanged.  (The
embedding is purely functional, so the input list is unchanged by
construction, matching the copy-on-write `pour` of `engine.ts`.) -/
theorem pour_transfers_min_run (tubes : List Tube) (fr tgt : Nat)
    (lockedMask : List (List Bool))
    (hfr : fr < tubes.length) (htgt : tgt < tubes.length) (hne : fr ≠ tgt)
    (hcan : canPour (tubes.getD fr []) (tubes.getD tgt []) = true) :
    (pour tubes fr tgt lockedMask).length = tubes.length ∧
    (pour tubes fr tgt lockedMask).getD fr [] =
      (tubes.getD fr []).take ((tubes.getD fr []).length -
        min (topCount (tubes.getD fr []) (lockedMask.getD fr []))
          (TUBE_CAPACITY - (tubes.getD tgt []).length)) ∧
    ((pour tubes fr tgt lockedMask).getD fr []).length =
      (tubes.getD fr []).length -
        min (topCount (tubes.getD fr []) (lockedMask.getD fr []))
          (TUBE_CAPACITY - (tubes.getD tgt []).length) ∧
    (pour tubes fr tgt lockedMask).getD tgt [] =
      tubes.getD tgt [] ++
        List.replicate
          (min (topCount (tubes.getD fr []) (lockedMask.getD fr []))
            (TUBE_CAPACITY - (tubes.getD tgt []).length))
          ((topColor (tubes.getD fr [])).getD "") ∧
    ∀ k, k < tubes.length → k ≠ fr → k ≠ tgt →
      (pour tubes fr tgt lockedMask).getD k [] = tubes.getD k [] := by
  have hblt : (tubes.getD tgt []).length < TUBE_CAPACITY := canPour_dest_lt _ _ hcan
  have hmin : transferredN tubes fr tgt lockedMask =
      min (topCount (tubes.getD fr []) (lockedMask.getD fr []))
        (TUBE_CAPACITY - (tubes.getD tgt []).length) :=
    transferredN_eq_min tubes fr tgt lockedMask (le_of_lt hblt)
  refine ⟨pour_length _ _ _ _, ?_, ?_, ?_, ?_⟩
  · rw [pour_getD tubes fr tgt lockedMask fr hfr, if_pos rfl, hmin]
  · rw [pour_getD tubes fr tgt lockedMask fr hfr, if_pos rfl, hmin,
      List.length_take]
    have := topCount_le_length (tubes.getD fr []) (lockedMask.getD fr [])
    omega
  · rw [pour_getD tubes fr tgt lockedMask tgt htgt, if_neg (Ne.symm hne),
      if_pos rfl, hmin]
  · intro k hk hkf hkt
    rw [pour_getD tubes fr tgt lockedMask k hk, if_neg hkf, if_neg hkt]

/-- Witness for `pour_transfers_min_run` at a concrete legal pour. -/
theorem pour_transfers_min_run_witness :
    canPour ([["b", "a"], ["a"], []].getD 0 []) ([["b", "a"], ["a"], []].getD 1 []) = true ∧
    (pour [["b", "a"], ["a"], []] 0 1 []).getD 1 [] = ["a", "a"] :=
  ⟨by decide,
    ((pour_transfers_min_run [["b", "a"], ["a"], []] 0 1 []
      (by decide) (by decide) (by decide) (by decide)).2.2.2.1).trans (by decide)⟩

/-- C5: case analysis of `canPour`: false on an empty source, false on a
destination at (or beyond) capacity, true on an empty destination, and
otherwise true exactly when the two top colors agree. -/
theorem canPour_cases (s d : Tube) :
    (s = [] → canPour s d = false) ∧
    (TUBE_CAPACITY ≤ d.length → canPour s d = false) ∧
    (s ≠ [] → d = [] → canPour s d = true) ∧
    (s ≠ [] → d ≠ [] → d.length < TUBE_CAPACITY →
      (canPour s d = true ↔ topColor s = topColor d)) := by
  refine ⟨?_, ?_, ?_, ?_⟩
  · intro h; subst h; simp [canPour]
  · intro h
    simp only [canPour, if_pos h]
    split <;> rfl
  · intro hs hd
    subst hd
    have : s.length ≠ 0 := by simpa [List.length_eq_zero] using hs
    simp [canPour, this, TUBE_CAPACITY]
  · intro hs hd hlt
    have h1 : s.length ≠ 0 := by simpa [List.length_eq_zero] using hs
    have h2 : d.length ≠ 0 := by simpa [List.length_eq_zero] using hd
    simp [canPour, h1, h2, Nat.not_le.mpr hlt]

/-- Witness for `canPour_cases` at concrete tubes. -/
theorem canPour_cases_witness :
    ["a"] ≠ ([] : Tube) ∧ ["b"] ≠ ([] : Tube) ∧ (["b"] : Tube).length < TUBE_CAPACITY ∧
    (canPour ["a"] ["b"] = true ↔ topColor ["a"] = topColor ["b"]) :=
  ⟨by decide, by decide, by decide,
    (canPour_cases ["a"] ["b"]).2.2.2 (by decide) (by decide) (by decide)⟩
/-- C9: `pour` performs no legality check.  With an empty source or a full
destination nothing is transferred and the state is returned unchanged, but
on a color-mismatched (non-empty, non-full) destination it still transfers
`min(topRunLength(source), TUBE_CAPACITY - |dest|)` segments even though
`canPour` is false. -/
theorem pour_total_no_legality_check (tubes : List Tube) (fr tgt : Nat)
    (hfr : fr < tubes.length) (htgt : tgt < tubes.length) (hne : fr ≠ tgt) :
    (tubes.getD fr [] = [] →
      canPour (tubes.getD fr []) (tubes.getD tgt []) = false ∧
      pour tubes fr tgt [] = tubes) ∧
    ((tubes.getD tgt []).length = TUBE_CAPACITY →
      canPour (tubes.getD fr []) (tubes.getD tgt []) = false ∧
      pour tubes fr tgt [] = tubes) ∧
    (tubes.getD fr [] ≠ [] → tubes.getD tgt [] ≠ [] →
      (tubes.getD tgt []).length < TUBE_CAPACITY →
      topColor (tubes.getD fr []) ≠ topColor (tubes.getD tgt []) →
      canPour (tubes.getD fr []) (tubes.getD tgt []) = false ∧
      (pour tubes fr tgt []).getD fr [] =
        (tubes.getD fr []).take ((tubes.getD fr []).length -
          min (topCount (tubes.getD fr []) [])
            (TUBE_CAPACITY - (tubes.getD tgt []).length)) ∧
      (pour tubes fr tgt []).getD tgt [] =
        tubes.getD tgt [] ++
          List.replicate
            (min (topCount (tubes.getD fr []) [])
              (TUBE_CAPACITY - (tubes.getD tgt []).length))
            ((topColor (tubes.getD fr [])).getD "") ∧
      ∀ k, k < tubes.length → k ≠ fr → k ≠ tgt →
        (pour tubes fr tgt []).getD k [] = tubes.getD k []) := by
  refine ⟨?_, ?_, ?_⟩
  · intro hs
    constructor
    · rw [hs]; rfl
    · exact pour_eq_self_of_transferredN_zero _ _ _ _
        (transferredN_zero_of_source_empty _ _ _ _ hs)
  · intro hd
    constructor
    · have h1 : TUBE_CAPACITY ≤ (tubes.getD tgt []).length := le_of_eq hd.symm
      simp only [canPour, if_pos h1]
      split <;> rfl
    · exact pour_eq_self_of_transferredN_zero _ _ _ _
        (transferredN_zero_of_dest_full _ _ _ _ (le_of_eq hd.symm))
  · intro hs hd hlt hmismatch
    have h1 : (tubes.getD fr []).length ≠ 0 := by
      simpa [List.length_eq_zero] using hs
    have h2 : (tubes.getD tgt []).length ≠ 0 := by
      simpa [List.length_eq_zero] using hd
    have hmin : transferredN tubes fr tgt [] =
        min (topCount (tubes.getD fr []) [])
          (TUBE_CAPACITY - (tubes.getD tgt []).length) := by
      have := transferredN_eq_min tubes fr tgt [] (le_of_lt hlt)
      simpa using this
    refine ⟨?_, ?_, ?_, ?_⟩
    · unfold canPour
      rw [if_neg h1, if_neg (Nat.not_le.mpr hlt), if_neg h2]
      exact decide_eq_false hmismatch
    · rw [pour_getD tubes fr tgt [] fr hfr, if_pos rfl, hmin]
    · rw [pour_getD tubes fr tgt [] tgt htgt, if_neg (Ne.symm hne), if_pos rfl, hmin]
    · intro k hk hkf hkt
      rw [pour_getD tubes fr tgt [] k hk, if_neg hkf, if_neg hkt]

/-- Witness for `pour_total_no_legality_check`: a mismatched pour
(`"a"` onto `"b"`) still moves a segment. -/
theorem pour_total_no_legality_check_witness :
    topColor ([["c", "a"], ["b"], []].getD 0 []) ≠
      topColor ([["c", "a"], ["b"], []].getD 1 []) ∧
    (pour [["c", "a"], ["b"], []] 0 1 []).getD 1 [] = ["b", "a"] :=
  ⟨by decide,
    (((pour_total_no_legality_check [["c", "a"], ["b"], []] 0 1
        (by decide) (by decide) (by decide)).2.2 (by decide) (by decide)
        (by decide) (by decide)).2.2.1).trans (by decide)⟩

lemma pour_preserves_capacity (tubes : List Tube)
    (hcap : ∀ u ∈ tubes, u.length ≤ TUBE_CAPACITY) (fr tgt : Nat)
    (lockedMask : List (List Bool)) :
    ∀ u ∈ pour tubes fr tgt lockedMask, u.length ≤ TUBE_CAPACITY := by
  intro u hu
  obtain ⟨k, hk, rfl⟩ := List.mem_iff_getElem.mp hu
  have hk' : k < tubes.length := by
    rw [pour_length] at hk; exact hk
  have hsrc : (tubes.getD fr []).length ≤ TUBE_CAPACITY := by
    by_cases hfr : fr < tubes.length
    · rw [List.getD_eq_getElem tubes [] hfr]
      exact hcap _ (List.getElem_mem hfr)
    · rw [List.getD_eq_default]
      · simp
      · omega
  have hdst : (tubes.getD tgt []).length ≤ TUBE_CAPACITY := by
    by_cases htgt : tgt < tubes.length
    · rw [List.getD_eq_getElem tubes [] htgt]
      exact hcap _ (List.getElem_mem htgt)
    · rw [List.getD_eq_default]
      · simp
      · omega
  rw [← List.getD_eq_getElem _ [] hk, pour_getD tubes fr tgt lockedMask k hk']
  split_ifs with h1 h2
  · calc ((tubes.getD fr []).take _).length ≤ (tubes.getD fr []).length :=
        by rw [List.length_take]; omega
      _ ≤ TUBE_CAPACITY := hsrc
  · rw [List.length_append, List.length_replicate]
    have := transferredN_eq_min tubes fr tgt lockedMask hdst
    omega
  · rw [List.getD_eq_getElem tubes [] hk']
    exact hcap _ (List.getElem_mem hk')

/-- C6: the capacity invariant `0 ≤ |tube| ≤ TUBE_CAPACITY` (the lower bound
is inherent to `List.length`) is preserved by a single legal pour, and hence
holds in every state reachable by legal pours. -/
theorem pour_capacity_invariant (tubes : List Tube)
    (hcap : ∀ u ∈ tubes, u.length ≤ TUBE_CAPACITY) :
    (∀ fr tgt lockedMask, fr < tubes.length → tgt < tubes.length → fr ≠ tgt →
      canPour (tubes.getD fr []) (tubes.getD tgt []) = true →
      ∀ u ∈ pour tubes fr tgt lockedMask, u.length ≤ TUBE_CAPACITY) ∧
    (∀ t, Reachable tubes t → ∀ u ∈ t, u.length ≤ TUBE_CAPACITY) := by
  constructor
  · intro fr tgt lockedMask _ _ _ _
    exact pour_preserves_capacity tubes hcap fr tgt lockedMask
  · intro t ht
    induction ht with
    | refl => exact hcap
    | step fr tgt lockedMask _ _ _ _ _ ih =>
      exact pour_preserves_capacity _ ih fr tgt lockedMask

/-- Witness for `pour_capacity_invariant` on a concrete pour. -/
theorem pour_capacity_invariant_witness :
    (∀ u ∈ [["a"], ["a", "a"]], u.length ≤ TUBE_CAPACITY) ∧
    ∀ u ∈ pour [["a"], ["a", "a"]] 0 1 [], u.length ≤ TUBE_CAPACITY :=
  ⟨by decide,
    (pour_capacity_invariant [["a"], ["a", "a"]] (by decide)).1 0 1 []
      (by decide) (by decide) (by decide) (by decide)⟩
section HashOrder

lemma strLtb_false_trans : ∀ (a b c : List Char),
    strLtb a b = false → strLtb b c = false → strLtb a c = false := by
  intro a
  induction a with
  | nil =>
    intro b c h1 h2
    cases b with
    | nil => exact h2
    | cons hb tb => simp [strLtb] at h1
  | cons ha ta ih =>
    intro b c h1 h2
    cases c with
    | nil => rfl
    | cons hc tc =>
      cases b with
      | nil => simp [strLtb] at h2
      | cons hb tb =>
        simp only [strLtb] at h1 h2 ⊢
        by_cases hab : ha < hb
        · simp [hab] at h1
        · by_cases hbc : hb < hc
          · simp [hbc] at h2
          · have hac : ¬ ha < hc := fun h =>
              hab (lt_of_lt_of_le h (le_of_not_lt hbc))
            rw [if_neg hac]
            by_cases hca : hc < ha
            · rw [if_pos hca]
            · rw [if_neg hca]
              have e1 : ha = hc := le_antisymm (le_of_not_lt hca) (le_of_not_lt hac)
              have e2 : hb = ha :=
                le_antisymm (le_of_not_lt hab) (e1 ▸ le_of_not_lt hbc)
              rw [if_neg hab, if_neg (by rw [e2]; exact lt_irrefl ha)] at h1
              rw [if_neg hbc, if_neg (by rw [e2, e1]; exact lt_irrefl hc)] at h2
              exact ih tb tc h1 h2

lemma strLtb_asymm : ∀ (a b : List Char),
    strLtb a b = true → strLtb b a = false := by
  intro a
  induction a with
  | nil =>
    intro b h
    cases b with
    | nil => simp [strLtb] at h
    | cons hb tb => rfl
  | cons ha ta ih =>
    intro b h
    cases b with
    | nil => simp [strLtb] at h
    | cons hb tb =>
      simp only [strLtb] at h ⊢
      by_cases hab : ha < hb
      · rw [if_neg (lt_asymm hab), if_pos hab]
      · by_cases hba : hb < ha
        · rw [if_neg hab, if_pos hba] at h
          exact absurd h (by simp)
        · rw [if_neg hab, if_neg hba] at h
          rw [if_neg hba, if_neg hab]
          exact ih tb h

lemma strLtb_both_false_eq : ∀ (a b : List Char),
    strLtb a b = false → strLtb b a = false → a = b := by
  intro a
  induction a with
  | nil =>
    intro b h1 _
    cases b with
    | nil => rfl
    | cons hb tb => simp [strLtb] at h1
  | cons ha ta ih =>
    intro b h1 h2
    cases b with
    | nil => simp [strLtb] at h2
    | cons hb tb =>
      simp only [strLtb] at h1 h2
      by_cases hab : ha < hb
      · simp [hab] at h1
      · by_cases hba : hb < ha
        · simp [hab, hba] at h2
        · have e : ha = hb := le_antisymm (le_of_not_lt hba) (le_of_not_lt hab)
          rw [if_neg hab, if_neg hba] at h1
          rw [if_neg hba, if_neg hab] at h2
          rw [e, ih tb h1 h2]

lemma hashState_perm_congr {t1 t2 : List Tube} (h : t1.Perm t2) :
    hashState t1 = hashState t2 := by
  unfold hashState
  congr 1
  letI : IsTrans String (fun a b => strLeb a b = true) := by
    constructor
    intro a b c hab hbc
    simp only [strLeb, Bool.not_eq_true'] at hab hbc ⊢
    exact strLtb_false_trans c.data b.data a.data hbc hab
  letI : IsAntisymm String (fun a b => strLeb a b = true) := by
    constructor
    intro a b hab hba
    simp only [strLeb, Bool.not_eq_true'] at hab hba
    have := strLtb_both_false_eq b.data a.data hab hba
    cases a
    cases b
    exact congrArg String.mk this.symm
  letI : IsTotal String (fun a b => strLeb a b = true) := by
    constructor
    intro a b
    by_cases h : strLtb b.data a.data = true
    · right
      simp only [strLeb, Bool.not_eq_true']
      exact strLtb_asymm b.data a.data h
    · left
      simp only [strLeb, Bool.not_eq_true']
      exact Bool.not_eq_true _ ▸ h
  apply List.eq_of_perm_of_sorted
    (r := fun a b : String => strLeb a b = true)
  · exact ((List.perm_insertionSort _ _).trans (h.map _)).trans
      (List.perm_insertionSort _ _).symm
  · exact List.sorted_insertionSort _ _
  · exact List.sorted_insertionSort _ _

end HashOrder

/-- C7: `hashState` is invariant under permutations of tube order. -/
theorem hashState_permutation_invariant (t1 t2 : List Tube) (h : t1.Perm t2) :
    hashState t1 = hashState t2 :=
  hashState_perm_congr h

/-- Witness for `hashState_permutation_invariant` on a concrete swap. -/
theorem hashState_permutation_invariant_witness :
    hashState [["a"], ["b", "c"]] = hashState [["b", "c"], ["a"]] :=
  hashState_permutation_invariant [["a"], ["b", "c"]] [["b", "c"], ["a"]]
    (List.Perm.swap _ _ _)
section EmptyTubeSymmetry

lemma pour_eq_set (tubes : List Tube) (fr tgt : Nat) (lockedMask : List (List Bool))
    (hne : fr ≠ tgt) :
    pour tubes fr tgt lockedMask =
      (tubes.set fr
        ((tubes.getD fr []).take
          ((tubes.getD fr []).length - transferredN tubes fr tgt lockedMask))).set tgt
        ((tubes.getD tgt []) ++
          List.replicate (transferredN tubes fr tgt lockedMask)
            ((topColor (tubes.getD fr [])).getD "")) := by
  apply List.ext_getElem (by simp [pour])
  intro k hk1 hk2
  simp only [pour, transferredN, List.getElem_mapIdx, List.getElem_set]
  by_cases h1 : k = fr
  · rw [if_pos h1, if_neg (by omega), if_pos h1.symm]
  · rw [if_neg h1]
    by_cases h2 : k = tgt
    · rw [if_pos h2, if_pos h2.symm]
    · rw [if_neg h2, if_neg (fun h => h2 h.symm), if_neg (fun h => h1 h.symm)]

lemma cons_perm_set {α : Type} (v x : α) :
    ∀ (m : Nat) (xs : List α) (hm : m < xs.length), xs[m] = x →
      (v :: xs).Perm (x :: xs.set m v) := by
  intro m
  induction m with
  | zero =>
    intro xs hm he
    cases xs with
    | nil => simp at hm
    | cons y t =>
      simp only [List.getElem_cons_zero] at he
      subst he
      simpa [List.set] using List.Perm.swap y v t
  | succ m ih =>
    intro xs hm he
    cases xs with
    | nil => simp at hm
    | cons y t =>
      have hm' : m < t.length := by simpa using hm
      have he' : t[m] = x := by simpa using he
      have step1 : (v :: y :: t).Perm (y :: v :: t) := List.Perm.swap y v t
      have step2 : (y :: v :: t).Perm (y :: x :: t.set m v) :=
        (ih t hm' he').cons y
      have step3 : (y :: x :: t.set m v).Perm (x :: y :: t.set m v) :=
        List.Perm.swap x y (t.set m v)
      simpa [List.set] using (step1.trans step2).trans step3

lemma set_perm_set {α : Type} (v : α) :
    ∀ (l : List α) (i j : Nat) (hi : i < l.length) (hj : j < l.length),
      l[i] = l[j] → (l.set i v).Perm (l.set j v) := by
  intro l
  induction l with
  | nil => intro i j hi _ _; simp at hi
  | cons y t ih =>
    intro i j hi hj he
    cases i with
    | zero =>
      cases j with
      | zero => exact List.Perm.refl _
      | succ j =>
        have hj' : j < t.length := by simpa using hj
        have he' : t[j] = y := by
          simpa using he.symm
        simpa [List.set] using cons_perm_set v y j t hj' he'
    | succ i =>
      cases j with
      | zero =>
        have hi' : i < t.length := by simpa using hi
        have he' : t[i] = y := by simpa using he
        have h1 : (v :: t).Perm (y :: t.set i v) := cons_perm_set v y i t hi' he'
        simp only [List.set]
        exact h1.symm
      | succ j =>
        have hi' : i < t.length := by simpa using hi
        have hj' : j < t.length := by simpa using hj
        have he' : t[i] = t[j] := by simpa using he
        simpa [List.set] using (ih i j hi' hj' he').cons y

/-- C2 (amended): the solver's move loop never skips a pour merely because
its destination is a non-first empty tube — but pouring a given source into
any one of several empty tubes yields states with identical canonical
hashes, so no such pour ever contributes a new state to the frontier. -/
theorem pour_into_any_empty_hash_eq (tubes : List Tube) (fr i j : Nat)
    (hi : i < tubes.length) (hj : j < tubes.length)
    (hfi : fr ≠ i) (hfj : fr ≠ j)
    (hei : tubes.getD i [] = []) (hej : tubes.getD j [] = []) :
    hashState (pour tubes fr i []) = hashState (pour tubes fr j []) := by
  apply hashState_perm_congr
  rw [pour_eq_set tubes fr i [] hfi, pour_eq_set tubes fr j [] hfj]
  rw [hei, hej]
  have htr : transferredN tubes fr i [] = transferredN tubes fr j [] := by
    unfold transferredN
    rw [hei, hej]
  rw [htr]
  set S := (tubes.getD fr []).take
    ((tubes.getD fr []).length - transferredN tubes fr j []) with hS
  set D := ([] : Tube) ++
    List.replicate (transferredN tubes fr j []) ((topColor (tubes.getD fr [])).getD "")
    with hD
  have hi' : i < (tubes.set fr S).length := by simpa using hi
  have hj' : j < (tubes.set fr S).length := by simpa using hj
  apply set_perm_set D (tubes.set fr S) i j hi' hj'
  rw [List.getElem_set, List.getElem_set, if_neg hfi, if_neg hfj]
  rw [← List.getD_eq_getElem tubes [] hi, ← List.getD_eq_getElem tubes [] hj, hei, hej]

/-- Witness for `pour_into_any_empty_hash_eq`: tubes 1 and 2 are both empty
and pouring tube 0 into either yields the same canonical hash. -/
theorem pour_into_any_empty_hash_eq_witness :
    ([["a", "b"], [], []].getD 1 [] = []) ∧ ([["a", "b"], [], []].getD 2 [] = []) ∧
    hashState (pour [["a", "b"], [], []] 0 1 []) =
      hashState (pour [["a", "b"], [], []] 0 2 []) :=
  ⟨by decide, by decide,
    pour_into_any_empty_hash_eq [["a", "b"], [], []] 0 1 2
      (by decide) (by decide) (by decide) (by decide) (by decide) (by decide)⟩

/-- C2 (counterexample to the claim as stated): at the state
`[["a","b"], [], []]` the first empty tube is index 1, yet the move `0 → 2`
into the second empty tube is produced by `getValidMoves`, is not skipped by
the solver's only pruning rule, and is genuinely processed by the solver's
move loop: `processMoves` pours it and pushes the result onto the next
frontier. -/
theorem solver_explores_nonfirst_empty_cex :
    (⟨0, 2⟩ : Move) ∈ getValidMoves [["a", "b"], [], []] [] ∧
    pruneMove [["a", "b"], [], []] ⟨0, 2⟩ = false ∧
    ([["a", "b"], [], []].getD 1 []).length = 0 ∧
    ([["a", "b"], [], []].getD 2 []).length = 0 ∧
    processMoves [["a", "b"], [], []] [⟨0, 2⟩] [] [] =
      .cont [hashState (pour [["a", "b"], [], []] 0 2 [])]
        [pour [["a", "b"], [], []] 0 2 []] := by
  refine ⟨by decide, by decide, by decide, by decide, ?_⟩
  decide

end EmptyTubeSymmetry
section LockedMasks

lemma getD_map_false {α : Type} (l : List α) (n : Nat) :
    (l.map (fun _ => false)).getD n false = false := by
  induction l generalizing n with
  | nil => rfl
  | cons x t ih =>
    cases n with
    | zero => rfl
    | succ n => exact ih n

lemma generateLockedMaskTube_top_false (tube : Tube) (lockedPercentage : ℚ)
    (isLocked : Bool) (r : Nat) (hlen : 2 ≤ tube.length)
    (hr : r + 2 ≤ tube.length) :
    (generateLockedMaskTube tube lockedPercentage isLocked r).getD
      (tube.length - 1) false = false := by
  unfold generateLockedMaskTube
  split
  · exact getD_map_false _ _
  · split
    · exact getD_map_false _ _
    · have hlt : tube.length - 1 < (tube.mapIdx fun i _ => decide (i < 1 + r)).length := by
        simp; omega
      rw [List.getD_eq_getElem _ _ hlt, List.getElem_mapIdx]
      simp only [decide_eq_false_iff_not]
      omega

lemma revealTubeMask_newMask_length (tubeMask : List Bool) (tube : Tube) :
    (if tube.length < tubeMask.length then tubeMask.take tube.length
      else if tubeMask.length < tube.length then
        tubeMask ++ List.replicate (tube.length - tubeMask.length) false
      else tubeMask).length = tube.length := by
  split
  · simp; omega
  · split
    · simp; omega
    · omega

lemma reveal_branch_top_false (newMask : List Bool) (tube : Tube)
    (hNlen : newMask.length = tube.length) (hlen : 0 < tube.length) :
    (if 0 < tube.length ∧ newMask.getD (tube.length - 1) false = true then
      newMask.set (tube.length - 1) false
    else newMask).getD (tube.length - 1) false = false := by
  split
  · next hcond =>
    have hidx : tube.length - 1 < (newMask.set (tube.length - 1) false).length := by
      simp [hNlen]; omega
    rw [List.getD_eq_getElem _ _ hidx, List.getElem_set, if_pos rfl]
  · next hcond =>
    rw [not_and_or] at hcond
    rcases hcond with h | h
    · omega
    · exact Bool.not_eq_true _ ▸ h

lemma revealTubeMask_top_false (tubeMask : List Bool) (tube : Tube)
    (htube : tube ≠ []) :
    (revealTubeMask tubeMask tube).getD (tube.length - 1) false = false :=
  reveal_branch_top_false _ tube (revealTubeMask_newMask_length tubeMask tube)
    (List.length_pos.mpr htube)

/-- C10: locked masks never hide a tube's top segment.  For any tube of at
least two segments, `generateLockedMask` leaves the top index unlocked (and
when it locks at all, it locks exactly a contiguous bottom block of between
1 and `length - 1` segments); and `revealTopSegments` yields a mask that is
false at the top index of every non-empty tube it processes.  The oracle
bound `r + 2 ≤ |tube|` reflects `Math.floor(Math.random() * (len - 1)) ≤
len - 2` for `Math.random() < 1`. -/
theorem locked_masks_reveal_top :
    (∀ (tubes : List Tube) (lockedPercentage : ℚ) (lockOracle : List Bool)
      (countOracle : List Nat) (ti : Nat),
      ti < tubes.length → 2 ≤ (tubes.getD ti []).length →
      countOracle.getD ti 0 + 2 ≤ (tubes.getD ti []).length →
      ((generateLockedMask tubes lockedPercentage lockOracle countOracle).getD ti
        []).getD ((tubes.getD ti []).length - 1) false = false) ∧
    (∀ (tube : Tube) (lockedPercentage : ℚ) (isLocked : Bool) (r : Nat),
      2 ≤ tube.length → r + 2 ≤ tube.length → isLocked = true →
      ¬ lockedPercentage ≤ 0 →
      generateLockedMaskTube tube lockedPercentage isLocked r =
        tube.mapIdx (fun i _ => decide (i < 1 + r)) ∧
      1 ≤ 1 + r ∧ 1 + r ≤ tube.length - 1) ∧
    (∀ (lockedMask : List (List Bool)) (tubes : List Tube)
      (affectedIndices : Option (List Nat)) (ti : Nat),
      ti < lockedMask.length →
      (affectedIndices = none ∨ ∃ l, affectedIndices = some l ∧ ti ∈ l) →
      tubes.getD ti [] ≠ [] →
      ((revealTopSegments lockedMask tubes affectedIndices).getD ti []).getD
        ((tubes.getD ti []).length - 1) false = false) := by
  refine ⟨?_, ?_, ?_⟩
  · intro tubes pct lockOracle countOracle ti hti hlen hr
    have hti' : ti < (generateLockedMask tubes pct lockOracle countOracle).length := by
      simp [generateLockedMask, hti]
    rw [List.getD_eq_getElem _ _ hti']
    simp only [generateLockedMask, List.getElem_mapIdx]
    rw [List.getD_eq_getElem tubes [] hti] at hlen hr ⊢
    exact generateLockedMaskTube_top_false _ pct _ _ hlen hr
  · intro tube pct isLocked r hlen hr hl hp
    refine ⟨?_, ?_, ?_⟩
    · unfold generateLockedMaskTube
      rw [if_neg (by push_neg; exact ⟨by omega, not_le.mp hp⟩), hl]
      rfl
    · omega
    · omega
  · intro lockedMask tubes affectedIndices ti hti hproc htube
    have hti' : ti < (revealTopSegments lockedMask tubes affectedIndices).length := by
      simp [revealTopSegments, hti]
    rw [List.getD_eq_getElem _ _ hti']
    simp only [revealTopSegments, List.getElem_mapIdx]
    rcases hproc with h | ⟨l, hl, hmem⟩
    · subst h
      rw [if_neg (by simp)]
      exact revealTubeMask_top_false _ _ htube
    · subst hl
      rw [if_neg (by simp [hmem])]
      exact revealTubeMask_top_false _ _ htube

/-- Witness for `locked_masks_reveal_top` on a concrete tube and mask. -/
theorem locked_masks_reveal_top_witness :
    (((generateLockedMask [["a", "b", "c"]] (1 / 2) [true] [1]).getD 0 []).getD 2 false
      = false) ∧
    (((revealTopSegments [[true, true, true]] [["a", "b", "c"]] none).getD 0 []).getD 2
      false = false) :=
  ⟨locked_masks_reveal_top.1 [["a", "b", "c"]] (1 / 2) [true] [1] 0
      (by decide) (by decide) (by decide),
    locked_masks_reveal_top.2.2 [[true, true, true]] [["a", "b", "c"]] none 0
      (by decide) (Or.inl rfl) (by decide)⟩

end LockedMasks
section Generator

lemma attemptStep_accepted (f : Nat) (c t : List Tube) (p : Nat) (u : Bool)
    (h : attemptStep f c = .accepted t p u) :
    t = c ∧ isLevelComplete c [] = false ∧ hasDuplicateTube c = false := by
  unfold attemptStep at h
  by_cases h1 : isLevelComplete c [] = true
  · rw [if_pos h1] at h
    exact absurd h (by simp)
  · rw [if_neg h1] at h
    by_cases h2 : hasDuplicateTube c = true
    · rw [if_pos h2] at h
      exact absurd h (by simp)
    · rw [if_neg h2] at h
      have h1' : isLevelComplete c [] = false := by simpa using h1
      have h2' : hasDuplicateTube c = false := by simpa using h2
      split at h
      · split at h
        · injection h with a
          exact ⟨a.symm, h1', h2'⟩
        · split at h
          · exact absurd h (by simp)
          · split at h
            · exact absurd h (by simp)
            · injection h with a
              exact ⟨a.symm, h1', h2'⟩
      · injection h with a
        exact ⟨a.symm, h1', h2'⟩

/-- C8: a candidate configuration that is already complete or contains a
pre-solved (full, uniform) tube is rejected by the attempt-loop body before
its `solve` call is reached, and no such configuration is ever accepted by
the attempt loop. -/
theorem generator_rejects_before_solver :
    (∀ (filledTubeCount : Nat) (tubes : List Tube),
      isLevelComplete tubes [] = true ∨ hasDuplicateTube tubes = true →
      attemptStep filledTubeCount tubes = .rejected ∧
      attemptInvokesSolver filledTubeCount tubes = false) ∧
    (∀ (filledTubeCount : Nat) (candidates : List (List Tube)) (t : List Tube)
      (p : Nat) (u : Bool),
      createLevelAttempts filledTubeCount candidates = some (.accepted t p u) →
      isLevelComplete t [] = false ∧ hasDuplicateTube t = false) := by
  constructor
  · intro f tubes h
    constructor
    · unfold attemptStep
      by_cases h1 : isLevelComplete tubes [] = true
      · rw [if_pos h1]
      · rw [if_neg h1]
        rcases h with h | h
        · exact absurd h h1
        · rw [if_pos h]
    · unfold attemptInvokesSolver
      rcases h with h | h
      · rw [h]
        rfl
      · rw [h]
        simp
  · intro f candidates
    induction candidates with
    | nil => intro t p u h; exact absurd h (by simp [createLevelAttempts])
    | cons c rest ih =>
      intro t p u h
      unfold createLevelAttempts at h
      split at h
      · exact ih t p u h
      · next t' p' u' heq =>
        injection h with h'
        obtain ⟨e1, e2, e3⟩ := Attempt.accepted.inj h'
        obtain ⟨a, b1, b2⟩ := attemptStep_accepted f c t' p' u' heq
        subst e1
        exact ⟨a ▸ b1, a ▸ b2⟩

/-- Witness for `generator_rejects_before_solver`: an already-complete
candidate is rejected without consulting the solver. -/
theorem generator_rejects_before_solver_witness :
    isLevelComplete [["a", "a", "a", "a", "a"], []] [] = true ∧
    attemptStep 1 [["a", "a", "a", "a", "a"], []] = .rejected ∧
    attemptInvokesSolver 1 [["a", "a", "a", "a", "a"], []] = false :=
  ⟨by decide,
    (generator_rejects_before_solver.1 1 [["a", "a", "a", "a", "a"], []]
      (Or.inl (by decide))).1,
    (generator_rejects_before_solver.1 1 [["a", "a", "a", "a", "a"], []]
      (Or.inl (by decide))).2⟩

end Generator

/-- C4: `MAX_STATES` is 300000; as soon as the count of distinct visited
canonical hashes exceeds it after processing a state (with no goal found),
the queue pass aborts with `overflow` and the solver loop returns `none`
(`null` in `solver.ts`) — an outcome distinct from both `{solvable: true}`
and `{solvable: false, par: 0}`. -/
theorem solver_overflow_indeterminate :
    MAX_STATES = 300000 ∧
    (∀ (state : List Tube) (rest : List (List Tube)) (visited : List String)
      (nextQueue : List (List Tube)) (visited' : List String)
      (nextQueue' : List (List Tube)),
      processMoves state (getValidMoves state []) visited nextQueue =
        .cont visited' nextQueue' →
      MAX_STATES < visited'.length →
      processQueue (state :: rest) visited nextQueue = .overflow) ∧
    (∀ (fuel : Nat) (queue : List (List Tube)) (visited : List String) (depth : Nat),
      queue ≠ [] → processQueue queue visited [] = .overflow →
      solveLoop (fuel + 1) queue visited depth = none) ∧
    (∀ d : Nat, (none : Option SolveResult) ≠ some ⟨true, d⟩) ∧
    (none : Option SolveResult) ≠ some ⟨false, 0⟩ := by
  refine ⟨rfl, ?_, ?_, ?_, ?_⟩
  · intro state rest visited nq v' nq' hpm hover
    unfold processQueue
    rw [hpm]
    exact if_pos hover
  · intro fuel queue visited depth hq hover
    cases queue with
    | nil => exact absurd rfl hq
    | cons s rest =>
      unfold solveLoop
      rw [hover]
  · intro d
    simp
  · simp

/-- Witness for `solver_overflow_indeterminate`: with 300001 visited hashes
already recorded, processing one more (move-less) state aborts the round and
the loop returns `none`. -/
theorem solver_overflow_indeterminate_witness :
    processQueue [[]] (List.replicate 300001 "") [] = .overflow ∧
    solveLoop 1 [[]] (List.replicate 300001 "") 0 = none := by
  have h1 : processMoves ([] : List Tube) (getValidMoves ([] : List Tube) [])
      (List.replicate 300001 "") [] = .cont (List.replicate 300001 "") [] := rfl
  have h2 : MAX_STATES < (List.replicate 300001 "").length := by
    rw [List.length_replicate]
    decide
  have h3 := solver_overflow_indeterminate.2.1 ([] : List Tube) []
    (List.replicate 300001 "") [] (List.replicate 300001 "") [] h1 h2
  exact ⟨h3, solver_overflow_indeterminate.2.2.1 0 [[]]
    (List.replicate 300001 "") 0 (by simp) h3⟩

/-- C1 (code bug): `hashState` conflates distinct states whose colors
contain its separator `","` (`["a","a"]` and `["a,a"]` both encode as
`"a,a"`), so BFS deduplication discards states it has never visited.  On
`collisionTubes` the solver consequently returns `par = 6` even though the
explicitly checked 5-pour sequence below is legal and solves the level, so
`par` is not the length of a shortest legal pour sequence. -/
theorem solve_par_not_optimal_on_collision :
    solve collisionTubes = some ⟨true, 6⟩ ∧
    pathLegal collisionTubes [(0, 1), (0, 2), (1, 3), (1, 2), (1, 3)] = true ∧
    isLevelComplete
      (applyPath collisionTubes [(0, 1), (0, 2), (1, 3), (1, 2), (1, 3)]) [] = true ∧
    ([(0, 1), (0, 2), (1, 3), (1, 2), (1, 3)] : List (Nat × Nat)).length = 5 :=
  ⟨by decide, by decide, by decide, rfl⟩
section Fuel

lemma processMoves_cont_lengths (state : List Tube) :
    ∀ (ms : List Move) (v : List String) (nq : List (List Tube))
      (v' : List String) (nq' : List (List Tube)),
      processMoves state ms v nq = .cont v' nq' →
      v'.length + nq.length = v.length + nq'.length ∧ v.length ≤ v'.length := by
  intro ms
  induction ms with
  | nil =>
    intro v nq v' nq' h
    unfold processMoves at h
    injection h with e1 e2
    subst e1; subst e2
    omega
  | cons m rest ih =>
    intro v nq v' nq' h
    unfold processMoves at h
    split at h
    · exact ih v nq v' nq' h
    · dsimp only at h
      split at h
      · exact absurd h (by simp)
      · split at h
        · exact ih v nq v' nq' h
        · have := ih _ _ v' nq' h
          simp only [List.length_append, List.length_cons, List.length_nil] at this
          omega

lemma processQueue_next_facts :
    ∀ (q : List (List Tube)) (v : List String) (nq : List (List Tube))
      (v' : List String) (nq' : List (List Tube)),
      processQueue q v nq = .next v' nq' →
      v'.length + nq.length = v.length + nq'.length ∧ v.length ≤ v'.length ∧
        (q ≠ [] → v'.length ≤ MAX_STATES) := by
  intro q
  induction q with
  | nil =>
    intro v nq v' nq' h
    unfold processQueue at h
    injection h with e1 e2
    subst e1; subst e2
    exact ⟨by omega, le_refl _, fun hne => absurd rfl hne⟩
  | cons s rest ih =>
    intro v nq v' nq' h
    unfold processQueue at h
    split at h
    · exact absurd h (by simp)
    · next v1 nq1 hpm =>
      split at h
      · exact absurd h (by simp)
      · next hguard =>
        have hb : v1.length ≤ MAX_STATES := by
          simpa using hguard
        have hf1 := processMoves_cont_lengths s _ v nq v1 nq1 hpm
        have hf2 := ih v1 nq1 v' nq' h
        refine ⟨by omega, by omega, fun _ => ?_⟩
        cases rest with
        | nil =>
          unfold processQueue at h
          injection h with e1 e2
          subst e1
          exact hb
        | cons r rs => exact hf2.2.2 (by simp)

/-- Any fuel of at least `MAX_STATES + 3 - |visited|` is interchangeable:
the `overflow` guard keeps `visited` below `MAX_STATES + 1`, each round with
a non-empty next frontier strictly grows `visited`, and an empty frontier
terminates the loop, so `solveLoop`'s fuel never runs out with the budget
`solve` supplies. -/
lemma solveLoop_fuel_irrelevant :
    ∀ (fuel : Nat) (queue : List (List Tube)) (visited : List String) (depth : Nat),
      visited.length ≤ MAX_STATES + 1 → MAX_STATES + 3 ≤ fuel + visited.length →
      solveLoop (fuel + 1) queue visited depth = solveLoop fuel queue visited depth := by
  intro fuel
  induction fuel with
  | zero =>
    intro queue visited depth h1 h2
    exact absurd h2 (by omega)
  | succ f ihf =>
    intro queue visited depth h1 h2
    cases queue with
    | nil => rfl
    | cons s rest =>
      show solveLoop (f + 1 + 1) (s :: rest) visited depth =
        solveLoop (f + 1) (s :: rest) visited depth
      unfold solveLoop
      cases hq : processQueue (s :: rest) visited [] with
      | goal => rfl
      | overflow => rfl
      | next v' nq =>
        obtain ⟨he, hgrow, hbound⟩ := processQueue_next_facts _ _ _ _ _ hq
        have hb : v'.length ≤ MAX_STATES := hbound (by simp)
        cases nq with
        | nil =>
          have hf : 1 ≤ f := by omega
          cases f with
          | zero => omega
          | succ f' => rfl
        | cons n ns =>
          apply ihf
          · omega
          · simp only [List.length_nil, List.length_cons] at he
            omega

/-- Fuel choice of `solve` is canonical: any extra fuel yields the same
result. -/
lemma solve_fuel_stable (tubes : List Tube) (extra : Nat)
    (h : isLevelComplete tubes [] = false) :
    solveLoop (MAX_STATES + 2 + extra) [tubes] [hashState tubes] 0 = solve tubes := by
  induction extra with
  | zero =>
    unfold solve
    rw [if_neg (by simp [h])]
  | succ e ih =>
    have : MAX_STATES + 2 + (e + 1) = (MAX_STATES + 2 + e) + 1 := rfl
    rw [this, solveLoop_fuel_irrelevant (MAX_STATES + 2 + e) [tubes]
      [hashState tubes] 0 (by simp [MAX_STATES])
      (by simp only [List.length_cons, List.length_nil]; omega)]
    exact ih

end Fuel

end WaterSort
